import Mathlib

/-!
Shallow embedding of the SayZhong learning-effectiveness scorer
(`src/sayzhong/core/effectiveness_analyzer.py` together with the data model in
`src/sayzhong/core/learning_effectiveness.py`).

Python floats are modelled as exact rationals (`ℚ`); the one place the source
takes a square root (`math.sqrt` in `_calculate_difficulty_trend`) is modelled
over the reals with `Real.sqrt`.  Timestamps are modelled as seconds since the
epoch (`ℕ`): ordering of `datetime` values is ordering of these numbers and
`timestamp.hour` is `t / 3600 % 24`.  Python's `sorted` (a stable sort by
timestamp) is modelled by `List.insertionSort`, which is also stable.
Dictionaries with string keys and numeric values are modelled as association
lists.
-/

namespace SayZhong

/-- Model of the `LearningDifficulty` enum from `learning_effectiveness.py`. -/
inductive LearningDifficulty where
  | beginner
  | elementary
  | intermediate
  | advanced
  | native
  deriving DecidableEq

/-- Model of the `ContentType` enum from `learning_effectiveness.py`. -/
inductive ContentType where
  | vocabulary
  | grammar
  | conversation
  | listening
  | reading
  | writing
  deriving DecidableEq

/-- The `difficulty_values` mapping used by `_calculate_difficulty_trend`
(and `calculate_difficulty_progression_rate`): difficulty levels map to 1..5. -/
def difficultyValue : LearningDifficulty → ℚ
  | .beginner => 1
  | .elementary => 2
  | .intermediate => 3
  | .advanced => 4
  | .native => 5

/-- The `LearningInteraction` dataclass.  `timestamp` is seconds since the
epoch; `response_time_seconds` is a float modelled as `ℚ`; `hints_used` and
`attempts` are Python ints modelled as `ℤ`. -/
structure LearningInteraction where
  interactionId : String
  userId : String
  sessionId : String
  timestamp : ℕ
  contentId : String
  contentType : ContentType
  difficultyLevel : LearningDifficulty
  question : String
  userAnswer : String
  correctAnswer : String
  isCorrect : Bool
  responseTimeSeconds : ℚ
  confidenceLevel : Option ℚ
  hintsUsed : ℤ
  attempts : ℤ
  previousAttempts : List String
  sessionPosition : ℕ
  timeSinceLastReview : Option ℚ
  deriving DecidableEq

/-- Model of `statistics.mean` (callers in the source only invoke it on non-empty
lists; on `[]` this total model returns the junk value `0`). -/
def listMean (xs : List ℚ) : ℚ := xs.sum / xs.length

/-- Model of `sorted(interactions, key=lambda x: x.timestamp)` — a stable sort by
timestamp. -/
def sortByTimestamp (l : List LearningInteraction) : List LearningInteraction :=
  List.insertionSort (fun a b => a.timestamp ≤ b.timestamp) l

/-- Model of `_calculate_immediate_effectiveness`: accuracy (weight 0.5), response-time
efficiency against a 30s baseline (weight 0.3) and a hint/attempt engagement
term (weight 0.2); `0.0` on empty input. -/
def immediateEffectiveness (l : List LearningInteraction) : ℚ :=
  if l = [] then 0
  else
    let accuracy : ℚ := (l.countP (·.isCorrect) : ℚ) / l.length
    let avgResponseTime := listMean (l.map (·.responseTimeSeconds))
    let responseEfficiency := max 0 (1 - avgResponseTime / 30)
    let avgHints := listMean (l.map (fun i => (i.hintsUsed : ℚ)))
    let avgAttempts := listMean (l.map (fun i => (i.attempts : ℚ)))
    let engagement := max 0 (1 - avgHints / 3 - (avgAttempts - 1) / 2)
    accuracy * 0.5 + responseEfficiency * 0.3 + engagement * 0.2

/-- The interactions of one content id (the groups built by
`_calculate_retention_effectiveness`). -/
def interactionsFor (l : List LearningInteraction) (cid : String) :
    List LearningInteraction :=
  l.filter (fun i => i.contentId = cid)

/-- Keys of a Python dict in insertion order: first occurrences, in order. -/
def firstOccurrences (l : List String) : List String :=
  l.foldl (fun acc x => if x ∈ acc then acc else acc ++ [x]) []

/-- The distinct content ids of an interaction list, in first-appearance
order (the iteration order of `content_groups.items()`). -/
def contentIdsOf (l : List LearningInteraction) : List String :=
  firstOccurrences (l.map (·.contentId))

/-- Per-content retention score from `_calculate_retention_effectiveness`:
mean correctness of the first three versus the last three interactions in
timestamp order; ratio `later/initial` when `initial > 0`, else `0.5`;
capped at `1.0`. -/
def retentionScoreFor (ci : List LearningInteraction) : ℚ :=
  let sorted := sortByTimestamp ci
  let initialPerformance : ℚ :=
    ((sorted.take 3).countP (·.isCorrect) : ℚ) / (min 3 sorted.length : ℕ)
  let laterPerformance : ℚ :=
    ((sorted.drop (sorted.length - 3)).countP (·.isCorrect) : ℚ) /
      (min 3 sorted.length : ℕ)
  let retentionScore :=
    if 0 < initialPerformance then laterPerformance / initialPerformance else 0.5
  min retentionScore 1

/-- Model of `_calculate_retention_effectiveness`: groups by content id, keeps contents
with at least two interactions, averages their retention scores; `0.5` when no
content qualifies.  (The `retention_data` argument of the source is unused.) -/
def retentionEffectiveness (l : List LearningInteraction) : ℚ :=
  let groups := (contentIdsOf l).map (fun cid => interactionsFor l cid)
  let retentionScores := (groups.filter (fun g => 2 ≤ g.length)).map retentionScoreFor
  if retentionScores = [] then 0.5 else listMean retentionScores

/-- Model of `progress_data.get(key, 0)` over an association-list model of the dict. -/
def lookupOr (d : List (String × ℚ)) (k : String) (v : ℚ) : ℚ :=
  match d.find? (fun p => p.1 = k) with
  | some p => p.2
  | none => v

/-- Model of `_calculate_progression_effectiveness`: `0.5` on an empty summary, else
normalizes `difficulty_progression`, `mastery_rate` and `learning_velocity`
against caps 5 / 1.0 / 10 and combines with weights 0.4 / 0.4 / 0.2. -/
def progressionEffectiveness (d : List (String × ℚ)) : ℚ :=
  if d = [] then 0.5
  else
    let difficultyProgression := lookupOr d "difficulty_progression" 0
    let masteryRate := lookupOr d "mastery_rate" 0
    let learningVelocity := lookupOr d "learning_velocity" 0
    let normalizedProgression := min (difficultyProgression / 5) 1
    let normalizedMastery := min masteryRate 1
    let normalizedVelocity := min (learningVelocity / 10) 1
    normalizedProgression * 0.4 + normalizedMastery * 0.4 + normalizedVelocity * 0.2

/-- The composite computed in `analyze_user_effectiveness` (lines 100-104):
weights 0.4 / 0.4 / 0.2 over the three sub-scores. -/
def overallEffectiveness (imm ret prog : ℚ) : ℚ :=
  imm * 0.4 + ret * 0.4 + prog * 0.2

/-- Hour of day (`interaction.timestamp.hour`) for an epoch-seconds timestamp. -/
def hourOf (i : LearningInteraction) : ℕ := i.timestamp / 3600 % 24

/-- The interactions falling in a given hour-of-day (the groups built by
`_identify_learning_patterns_ai`). -/
def interactionsAtHour (l : List LearningInteraction) (h : ℕ) :
    List LearningInteraction :=
  l.filter (fun i => hourOf i = h)

/-- The hours present in the input, in first-appearance order (iteration
order of the `hour_performance` dict). -/
def hoursOf (l : List LearningInteraction) : List ℕ :=
  (l.map hourOf).foldl (fun acc x => if x ∈ acc then acc else acc ++ [x]) []

/-- An hour qualifies when it has at least 5 observations and accuracy above
0.8 (`_identify_learning_patterns_ai`, lines 538-542). -/
def qualifiesAt (l : List LearningInteraction) (h : ℕ) : Bool :=
  let perf := interactionsAtHour l h
  decide (5 ≤ perf.length) &&
    decide ((0.8 : ℚ) < (perf.countP (·.isCorrect) : ℚ) / perf.length)

/-- The `best_hours` list of `_identify_learning_patterns_ai`. -/
def bestHours (l : List LearningInteraction) : List ℕ :=
  (hoursOf l).filter (fun h => qualifiesAt l h)

/-- The `LearningPattern` dataclass, specialized to the one pattern the
analyzer emits: its `conditions` dict `{"optimal_hours": best_hours}` is the
field `optimalHours`, its `outcomes` dict `{"accuracy_improvement": 0.2}` is
the field `accuracyImprovement`. -/
structure LearningPattern where
  patternId : String
  patternType : String
  description : String
  effectivenessScore : ℚ
  frequency : ℕ
  applicableUsers : List String
  optimalHours : List ℕ
  accuracyImprovement : ℚ
  deriving DecidableEq

/-- Model of `_identify_learning_patterns_ai`: emits a single aggregated
"optimal_timing" pattern when some hour qualifies, else nothing. -/
def identifyLearningPatternsAI (l : List LearningInteraction) :
    List LearningPattern :=
  if hl : l = [] then []
  else
    let bh := bestHours l
    if bh = [] then []
    else
      [{ patternId := "optimal_timing_0"
         patternType := "optimal_timing"
         description := "User performs best during hours"
         effectivenessScore := 0.8
         frequency := bh.length
         applicableUsers := [(l.head hl).userId]
         optimalHours := bh
         accuracyImprovement := 0.2 }]

/-- Sum of squared deviations from the mean (the `denominator_x` /
`denominator_y` computations of `_calculate_difficulty_trend`). -/
def squaredDeviations (xs : List ℚ) : ℚ :=
  (xs.map (fun x => (x - listMean xs) ^ 2)).sum

/-- The covariance-style numerator of `_calculate_difficulty_trend`. -/
def meanDeviationProducts (xs ys : List ℚ) : ℚ :=
  ((xs.zip ys).map (fun p => (p.1 - listMean xs) * (p.2 - listMean ys))).sum

/-- The index series `x_values = list(range(len(difficulties)))` as rationals. -/
def indexList (n : ℕ) : List ℚ := (List.range n).map (fun k : ℕ => (k : ℚ))

/-- The correlation-and-rescale step of `_calculate_difficulty_trend`,
applied to the (already sorted) mapped difficulty values. -/
noncomputable def trendOfVals (ds : List ℚ) : ℝ :=
  if ds.length < 2 then 0.5
  else
    let xs := indexList ds.length
    let num := meanDeviationProducts xs ds
    let dx := squaredDeviations xs
    let dy := squaredDeviations ds
    if dx = 0 ∨ dy = 0 then 0.5
    else
      let correlation : ℝ := (num : ℝ) / Real.sqrt ((dx : ℝ) * (dy : ℝ))
      max 0 ((correlation + 1) / 2)

/-- Model of `_calculate_difficulty_trend`: `0.5` for fewer than three interactions,
else the rescaled Pearson correlation between order index and mapped
difficulty of the timestamp-sorted interactions. -/
noncomputable def difficultyTrend (l : List LearningInteraction) : ℝ :=
  if l.length < 3 then 0.5
  else
    trendOfVals
      ((sortByTimestamp l).map (fun i => difficultyValue i.difficultyLevel))

/-- Model of `calculate_real_time_effectiveness`: `0.5` on empty input, else a
weighted combination of accuracy (0.4), response-time efficiency (0.2), mean
available confidence or `0.5` (0.2) and the difficulty trend (0.2), clamped
to `[0, 1]`. -/
noncomputable def realTimeEffectiveness (l : List LearningInteraction) : ℝ :=
  if l = [] then 0.5
  else
    let accuracy : ℚ := (l.countP (·.isCorrect) : ℚ) / l.length
    let avgResponseTime := listMean (l.map (·.responseTimeSeconds))
    let responseEfficiency : ℚ := max 0 (1 - avgResponseTime / 30)
    let confidenceScores := l.filterMap (·.confidenceLevel)
    let avgConfidence : ℚ :=
      if confidenceScores = [] then 0.5 else listMean confidenceScores
    let effectiveness : ℝ :=
      (accuracy : ℝ) * 0.4 + (responseEfficiency : ℝ) * 0.2 +
        (avgConfidence : ℝ) * 0.2 + difficultyTrend l * 0.2
    min (max effectiveness 0) 1

/-! ### Concrete test inputs -/

/-- A generic interaction record; only the fields the scorer reads vary. -/
def mkInteraction (ts : ℕ) (cid : String) (diff : LearningDifficulty)
    (correct : Bool) (rt : ℚ) (conf : Option ℚ) (hints atts : ℤ) :
    LearningInteraction :=
  { interactionId := "i", userId := "u", sessionId := "s", timestamp := ts,
    contentId := cid, contentType := .vocabulary, difficultyLevel := diff,
    question := "q", userAnswer := "a", correctAnswer := "a",
    isCorrect := correct, responseTimeSeconds := rt, confidenceLevel := conf,
    hintsUsed := hints, attempts := atts, previousAttempts := [],
    sessionPosition := 0, timeSinceLastReview := none }

/-- A single well-formed interaction (correct, 1s latency, no hints, one
attempt). -/
def goodInteraction : LearningInteraction :=
  mkInteraction 0 "c" .beginner true 1 none 0 1

/-- An interaction with negative response latency. -/
def negLatencyInteraction : LearningInteraction :=
  mkInteraction 0 "c" .beginner true (-30) none 0 1

/-- One content seen six times in time order: correct, correct, correct,
wrong, wrong, wrong. -/
def retentionExample : List LearningInteraction :=
  [mkInteraction 0 "c" .beginner true 1 none 0 1,
   mkInteraction 1 "c" .beginner true 1 none 0 1,
   mkInteraction 2 "c" .beginner true 1 none 0 1,
   mkInteraction 3 "c" .beginner false 1 none 0 1,
   mkInteraction 4 "c" .beginner false 1 none 0 1,
   mkInteraction 5 "c" .beginner false 1 none 0 1]

/-- Three interactions whose difficulty levels are strictly increasing but
not equally spaced: beginner, elementary, native (values 1, 2, 5). -/
def unevenTrendExample : List LearningInteraction :=
  [mkInteraction 0 "c" .beginner true 1 none 0 1,
   mkInteraction 1 "c" .elementary true 1 none 0 1,
   mkInteraction 2 "c" .native true 1 none 0 1]

/-- Three interactions advancing one difficulty level per step. -/
def evenTrendExample : List LearningInteraction :=
  [mkInteraction 0 "c" .beginner true 1 none 0 1,
   mkInteraction 1 "c" .elementary true 1 none 0 1,
   mkInteraction 2 "c" .intermediate true 1 none 0 1]

/-- Five interactions, all correct, all in hour 0. -/
def fiveAtHourZero : List LearningInteraction :=
  [mkInteraction 0 "c" .beginner true 1 none 0 1,
   mkInteraction 1 "c" .beginner true 1 none 0 1,
   mkInteraction 2 "c" .beginner true 1 none 0 1,
   mkInteraction 3 "c" .beginner true 1 none 0 1,
   mkInteraction 4 "c" .beginner true 1 none 0 1]

/-- Four interactions, all correct, all in hour 0. -/
def fourAtHourZero : List LearningInteraction :=
  [mkInteraction 0 "c" .beginner true 1 none 0 1,
   mkInteraction 1 "c" .beginner true 1 none 0 1,
   mkInteraction 2 "c" .beginner true 1 none 0 1,
   mkInteraction 3 "c" .beginner true 1 none 0 1]

/-- Ten correct interactions: five in hour 0 and five in hour 1, so both
hours qualify for the timing pattern. -/
def tenAtTwoHours : List LearningInteraction :=
  [mkInteraction 0 "c" .beginner true 1 none 0 1,
   mkInteraction 1 "c" .beginner true 1 none 0 1,
   mkInteraction 2 "c" .beginner true 1 none 0 1,
   mkInteraction 3 "c" .beginner true 1 none 0 1,
   mkInteraction 4 "c" .beginner true 1 none 0 1,
   mkInteraction 3600 "c" .beginner true 1 none 0 1,
   mkInteraction 3601 "c" .beginner true 1 none 0 1,
   mkInteraction 3602 "c" .beginner true 1 none 0 1,
   mkInteraction 3603 "c" .beginner true 1 none 0 1,
   mkInteraction 3604 "c" .beginner true 1 none 0 1]

/-- The progress summary with every cap reached. -/
def fullProgressSummary : List (String × ℚ) :=
  [("difficulty_progression", 5), ("mastery_rate", 1), ("learning_velocity", 10)]

/-! ### Helper lemmas -/

theorem listMean_le {xs : List ℚ} {c : ℚ} (hne : xs ≠ []) (h : ∀ x ∈ xs, x ≤ c) :
    listMean xs ≤ c := by
  have hn : (0 : ℚ) < xs.length := by
    exact_mod_cast List.length_pos.mpr hne
  have hs : xs.sum ≤ xs.length • c := List.sum_le_card_nsmul xs c h
  rw [nsmul_eq_mul] at hs
  rw [listMean, div_le_iff₀ hn, mul_comm]
  exact hs

theorem le_listMean {xs : List ℚ} {c : ℚ} (hne : xs ≠ []) (h : ∀ x ∈ xs, c ≤ x) :
    c ≤ listMean xs := by
  have hn : (0 : ℚ) < xs.length := by
    exact_mod_cast List.length_pos.mpr hne
  have hs : xs.length • c ≤ xs.sum := List.card_nsmul_le_sum xs c h
  rw [nsmul_eq_mul] at hs
  rw [listMean, le_div_iff₀ hn, mul_comm]
  exact hs

theorem countP_div_length_nonneg {α : Type} (l : List α) (p : α → Bool) :
    (0 : ℚ) ≤ (l.countP p : ℚ) / l.length := by positivity

theorem countP_div_length_le_one {α : Type} (l : List α) (p : α → Bool)
    (hne : l ≠ []) : (l.countP p : ℚ) / l.length ≤ 1 := by
  have hn : (0 : ℚ) < l.length := by
    exact_mod_cast List.length_pos.mpr hne
  rw [div_le_one hn]
  exact_mod_cast List.countP_le_length p

theorem immediateEffectiveness_nonneg (l : List LearningInteraction) :
    0 ≤ immediateEffectiveness l := by
  rw [immediateEffectiveness]
  split
  · norm_num
  · have h1 := countP_div_length_nonneg l (·.isCorrect)
    have h2 : (0 : ℚ) ≤ max 0 (1 - listMean (l.map (·.responseTimeSeconds)) / 30) :=
      le_max_left _ _
    have h3 : (0 : ℚ) ≤ max 0 (1 - listMean (l.map (fun i => (i.hintsUsed : ℚ))) / 3
        - (listMean (l.map (fun i => (i.attempts : ℚ))) - 1) / 2) := le_max_left _ _
    dsimp only
    nlinarith

theorem immediateEffectiveness_le_one (l : List LearningInteraction)
    (hrt : ∀ i ∈ l, 0 ≤ i.responseTimeSeconds)
    (hh : ∀ i ∈ l, 0 ≤ i.hintsUsed)
    (ha : ∀ i ∈ l, 1 ≤ i.attempts) :
    immediateEffectiveness l ≤ 1 := by
  rw [immediateEffectiveness]
  split
  · norm_num
  · rename_i hne
    have h1 : (l.countP (·.isCorrect) : ℚ) / l.length ≤ 1 :=
      countP_div_length_le_one l _ hne
    have hmrt : 0 ≤ listMean (l.map (·.responseTimeSeconds)) := by
      apply le_listMean (by simpa using hne)
      intro x hx
      obtain ⟨i, hi, rfl⟩ := List.mem_map.mp hx
      exact hrt i hi
    have hmh : 0 ≤ listMean (l.map (fun i => (i.hintsUsed : ℚ))) := by
      apply le_listMean (by simpa using hne)
      intro x hx
      obtain ⟨i, hi, rfl⟩ := List.mem_map.mp hx
      exact_mod_cast hh i hi
    have hma : 1 ≤ listMean (l.map (fun i => (i.attempts : ℚ))) := by
      apply le_listMean (by simpa using hne)
      intro x hx
      obtain ⟨i, hi, rfl⟩ := List.mem_map.mp hx
      exact_mod_cast ha i hi
    have h2 : max 0 (1 - listMean (l.map (·.responseTimeSeconds)) / 30) ≤ 1 := by
      apply max_le <;> linarith
    have h3 : max 0 (1 - listMean (l.map (fun i => (i.hintsUsed : ℚ))) / 3
        - (listMean (l.map (fun i => (i.attempts : ℚ))) - 1) / 2) ≤ 1 := by
      apply max_le <;> linarith
    have h0 := countP_div_length_nonneg l (·.isCorrect)
    have h2a : (0 : ℚ) ≤ max 0 (1 - listMean (l.map (·.responseTimeSeconds)) / 30) :=
      le_max_left _ _
    have h3a : (0 : ℚ) ≤ max 0 (1 - listMean (l.map (fun i => (i.hintsUsed : ℚ))) / 3
        - (listMean (l.map (fun i => (i.attempts : ℚ))) - 1) / 2) := le_max_left _ _
    dsimp only
    nlinarith

theorem retentionScoreFor_nonneg (ci : List LearningInteraction) :
    0 ≤ retentionScoreFor ci := by
  rw [retentionScoreFor]
  apply le_min _ zero_le_one
  split
  · rename_i hpos
    exact div_nonneg (by positivity) (le_of_lt hpos)
  · norm_num

theorem retentionScoreFor_le_one (ci : List LearningInteraction) :
    retentionScoreFor ci ≤ 1 := min_le_right _ _

theorem retentionEffectiveness_bounds (l : List LearningInteraction) :
    0 ≤ retentionEffectiveness l ∧ retentionEffectiveness l ≤ 1 := by
  rw [retentionEffectiveness]
  split
  · norm_num
  · rename_i hne
    constructor
    · apply le_listMean hne
      intro x hx
      obtain ⟨g, _, rfl⟩ := List.mem_map.mp hx
      exact retentionScoreFor_nonneg g
    · apply listMean_le hne
      intro x hx
      obtain ⟨g, _, rfl⟩ := List.mem_map.mp hx
      exact retentionScoreFor_le_one g

theorem progressionEffectiveness_bounds (d : List (String × ℚ))
    (hdp : 0 ≤ lookupOr d "difficulty_progression" 0)
    (hmr : 0 ≤ lookupOr d "mastery_rate" 0)
    (hlv : 0 ≤ lookupOr d "learning_velocity" 0) :
    0 ≤ progressionEffectiveness d ∧ progressionEffectiveness d ≤ 1 := by
  rw [progressionEffectiveness]
  split
  · norm_num
  · dsimp only
    have b1 : (0:ℚ) ≤ min (lookupOr d "difficulty_progression" 0 / 5) 1 :=
      le_min (by positivity) zero_le_one
    have b2 : min (lookupOr d "difficulty_progression" 0 / 5) 1 ≤ 1 := min_le_right _ _
    have b3 : (0:ℚ) ≤ min (lookupOr d "mastery_rate" 0) 1 := le_min hmr zero_le_one
    have b4 : min (lookupOr d "mastery_rate" 0) 1 ≤ 1 := min_le_right _ _
    have b5 : (0:ℚ) ≤ min (lookupOr d "learning_velocity" 0 / 10) 1 :=
      le_min (by positivity) zero_le_one
    have b6 : min (lookupOr d "learning_velocity" 0 / 10) 1 ≤ 1 := min_le_right _ _
    constructor <;> nlinarith

theorem realTimeEffectiveness_bounds (l : List LearningInteraction) :
    (0 : ℝ) ≤ realTimeEffectiveness l ∧ realTimeEffectiveness l ≤ 1 := by
  rw [realTimeEffectiveness]
  split
  · norm_num
  · dsimp only
    refine ⟨le_min (le_max_right _ _) zero_le_one, min_le_right _ _⟩

theorem mem_dedupFold {α : Type} [DecidableEq α] (l : List α) (acc : List α)
    (x : α) :
    x ∈ l.foldl (fun acc y => if y ∈ acc then acc else acc ++ [y]) acc ↔
      x ∈ acc ∨ x ∈ l := by
  induction l generalizing acc with
  | nil => simp
  | cons a t ih =>
    simp only [List.foldl_cons]
    by_cases ha : a ∈ acc
    · rw [if_pos ha, ih]
      simp only [List.mem_cons]
      constructor
      · rintro (hx | hx)
        · exact Or.inl hx
        · exact Or.inr (Or.inr hx)
      · rintro (hx | rfl | hx)
        · exact Or.inl hx
        · exact Or.inl ha
        · exact Or.inr hx
    · rw [if_neg ha, ih]
      simp only [List.mem_append, List.mem_cons, List.mem_singleton]
      tauto

theorem mem_hoursOf (l : List LearningInteraction) (h : ℕ) :
    h ∈ hoursOf l ↔ ∃ i ∈ l, hourOf i = h := by
  rw [hoursOf, mem_dedupFold]
  simp [List.mem_map]

theorem mem_bestHours (l : List LearningInteraction) (h : ℕ) :
    h ∈ bestHours l ↔ h ∈ hoursOf l ∧ qualifiesAt l h = true := by
  rw [bestHours, List.mem_filter]

/-! ### Claim theorems -/

/-- C6: on the empty interaction sequence, immediate effectiveness returns
exactly 0.0 while the real-time score returns exactly 0.5; both functions are
total, so neither signals an error. -/
theorem empty_input_defaults :
    immediateEffectiveness [] = 0 ∧ realTimeEffectiveness [] = 0.5 := by
  constructor
  · simp [immediateEffectiveness]
  · simp [realTimeEffectiveness]

/-- C8: progression effectiveness normalizes the three summary fields against
caps 5 / 1.0 / 10 via `min (value/cap) 1` and combines them with weights
0.4/0.4/0.2; an empty summary yields 0.5; the summary with
difficulty_progression 5, mastery_rate 1.0 and learning_velocity 10 yields
exactly 1.0. -/
theorem progression_formula :
    (∀ d : List (String × ℚ), d ≠ [] →
      progressionEffectiveness d =
        min (lookupOr d "difficulty_progression" 0 / 5) 1 * 0.4 +
        min (lookupOr d "mastery_rate" 0) 1 * 0.4 +
        min (lookupOr d "learning_velocity" 0 / 10) 1 * 0.2)
    ∧ progressionEffectiveness [] = 0.5
    ∧ progressionEffectiveness fullProgressSummary = 1 := by
  refine ⟨?_, by simp [progressionEffectiveness], ?_⟩
  · intro d hd
    rw [progressionEffectiveness, if_neg hd]
  · have h1 : lookupOr fullProgressSummary "difficulty_progression" 0 = 5 := rfl
    have h2 : lookupOr fullProgressSummary "mastery_rate" 0 = 1 := rfl
    have h3 : lookupOr fullProgressSummary "learning_velocity" 0 = 10 := rfl
    rw [progressionEffectiveness, if_neg (by simp [fullProgressSummary])]
    simp only [h1, h2, h3]
    norm_num

/-- C8 witness: the general formula applied to a concrete non-empty summary. -/
theorem progression_formula_witness :
    progressionEffectiveness [("mastery_rate", (1 : ℚ))] =
      min (lookupOr [("mastery_rate", (1 : ℚ))] "difficulty_progression" 0 / 5) 1 * 0.4 +
      min (lookupOr [("mastery_rate", (1 : ℚ))] "mastery_rate" 0) 1 * 0.4 +
      min (lookupOr [("mastery_rate", (1 : ℚ))] "learning_velocity" 0 / 10) 1 * 0.2 :=
  progression_formula.1 _ (by simp)

/-- C4: for every non-empty interaction sequence, immediate effectiveness
equals accuracy·0.5 + max(0, 1 − avg_latency/30)·0.3 +
max(0, 1 − avg_hints/3 − (avg_attempts − 1)/2)·0.2, with accuracy the
fraction of correct interactions and the averages arithmetic means. -/
theorem immediate_formula (l : List LearningInteraction) (hne : l ≠ []) :
    immediateEffectiveness l =
      ((l.countP (·.isCorrect) : ℚ) / l.length) * 0.5 +
      max 0 (1 - listMean (l.map (·.responseTimeSeconds)) / 30) * 0.3 +
      max 0 (1 - listMean (l.map (fun i => (i.hintsUsed : ℚ))) / 3 -
             (listMean (l.map (fun i => (i.attempts : ℚ))) - 1) / 2) * 0.2 := by
  rw [immediateEffectiveness, if_neg hne]

/-- C4 witness: the formula instantiated at a concrete one-element input. -/
theorem immediate_formula_witness :
    immediateEffectiveness [goodInteraction] =
      (([goodInteraction].countP (·.isCorrect) : ℚ) / [goodInteraction].length) * 0.5 +
      max 0 (1 - listMean ([goodInteraction].map (·.responseTimeSeconds)) / 30) * 0.3 +
      max 0 (1 - listMean ([goodInteraction].map (fun i => (i.hintsUsed : ℚ))) / 3 -
             (listMean ([goodInteraction].map (fun i => (i.attempts : ℚ))) - 1) / 2) * 0.2 :=
  immediate_formula [goodInteraction] (by simp)

/-- C9: for every non-empty sequence of correct, low-latency (at most 1s,
non-negative), zero-hint, single-attempt interactions, immediate
effectiveness is within 1/100 of 1.0. -/
theorem perfect_input_near_one (l : List LearningInteraction) (hne : l ≠ [])
    (hcor : ∀ i ∈ l, i.isCorrect = true)
    (hrt0 : ∀ i ∈ l, 0 ≤ i.responseTimeSeconds)
    (hrt1 : ∀ i ∈ l, i.responseTimeSeconds ≤ 1)
    (hh : ∀ i ∈ l, i.hintsUsed = 0)
    (ha : ∀ i ∈ l, i.attempts = 1) :
    |immediateEffectiveness l - 1| ≤ 1 / 100 := by
  have hn : (0 : ℚ) < l.length := by
    exact_mod_cast List.length_pos.mpr hne
  have hacc : (l.countP (·.isCorrect) : ℚ) / l.length = 1 := by
    rw [List.countP_eq_length.mpr (by simpa using hcor)]
    exact div_self (ne_of_gt hn)
  have hmne : l.map (·.responseTimeSeconds) ≠ [] := by simpa using hne
  have hm0 : 0 ≤ listMean (l.map (·.responseTimeSeconds)) := by
    apply le_listMean hmne
    intro x hx
    obtain ⟨i, hi, rfl⟩ := List.mem_map.mp hx
    exact hrt0 i hi
  have hm1 : listMean (l.map (·.responseTimeSeconds)) ≤ 1 := by
    apply listMean_le hmne
    intro x hx
    obtain ⟨i, hi, rfl⟩ := List.mem_map.mp hx
    exact hrt1 i hi
  have hhints : listMean (l.map (fun i => (i.hintsUsed : ℚ))) = 0 := by
    rw [listMean, List.sum_eq_zero, zero_div]
    intro x hx
    obtain ⟨i, hi, rfl⟩ := List.mem_map.mp hx
    rw [hh i hi]
    norm_num
  have hatt : listMean (l.map (fun i => (i.attempts : ℚ))) = 1 := by
    have hane : l.map (fun i => (i.attempts : ℚ)) ≠ [] := by simpa using hne
    have hb : ∀ x ∈ l.map (fun i => (i.attempts : ℚ)), x = 1 := by
      intro x hx
      obtain ⟨i, hi, rfl⟩ := List.mem_map.mp hx
      rw [ha i hi]
      norm_num
    exact le_antisymm (listMean_le hane (fun x hx => le_of_eq (hb x hx)))
      (le_listMean hane (fun x hx => ge_of_eq (hb x hx)))
  rw [immediateEffectiveness, if_neg hne]
  dsimp only
  rw [hacc, hhints, hatt]
  rw [max_eq_right (by linarith : (0:ℚ) ≤ 1 - listMean (l.map (·.responseTimeSeconds)) / 30)]
  rw [show (1 : ℚ) - 0 / 3 - (1 - 1) / 2 = 1 by norm_num,
    max_eq_right (by norm_num : (0:ℚ) ≤ 1)]
  rw [abs_le]
  constructor <;> nlinarith

/-- C9 witness: the bound applied at a concrete single perfect interaction. -/
theorem perfect_input_near_one_witness :
    |immediateEffectiveness [goodInteraction] - 1| ≤ 1 / 100 :=
  perfect_input_near_one [goodInteraction] (by simp)
    (by intro i hi; simp at hi; subst hi; rfl)
    (by intro i hi; simp at hi; subst hi; norm_num [goodInteraction, mkInteraction])
    (by intro i hi; simp at hi; subst hi; norm_num [goodInteraction, mkInteraction])
    (by intro i hi; simp at hi; subst hi; rfl)
    (by intro i hi; simp at hi; subst hi; rfl)

/-- C2 counterexample: on a correct, zero-hint, single-attempt interaction
whose response latency is the negative value −30, immediate effectiveness
does not reject the input: it returns the value 13/10, the negative latency
having been folded into the response-efficiency term (no `InvalidInputError`
exists anywhere in the code). -/
theorem negative_latency_not_rejected :
    immediateEffectiveness [negLatencyInteraction] = 13 / 10 := by
  rw [immediateEffectiveness, if_neg (by simp)]
  norm_num [negLatencyInteraction, mkInteraction, listMean, List.countP,
    List.countP.go]

/-- C2 amended: the scoring operations perform no input validation; a
negative response latency is silently coerced into the computed score.  For
any single correct, zero-hint, single-attempt interaction with latency < 0,
immediate effectiveness equals 0.7 + (1 − latency/30)·0.3, which exceeds 1. -/
theorem negative_latency_coerced (i : LearningInteraction)
    (hneg : i.responseTimeSeconds < 0) (hcor : i.isCorrect = true)
    (hh : i.hintsUsed = 0) (ha : i.attempts = 1) :
    immediateEffectiveness [i] = 0.7 + (1 - i.responseTimeSeconds / 30) * 0.3 ∧
    1 < immediateEffectiveness [i] := by
  have heval : immediateEffectiveness [i] =
      0.7 + (1 - i.responseTimeSeconds / 30) * 0.3 := by
    rw [immediateEffectiveness, if_neg (by simp)]
    norm_num [listMean, List.countP, List.countP.go, hcor, hh, ha]
    rw [max_eq_right (by linarith : (0:ℚ) ≤ 1 - i.responseTimeSeconds / 30)]
    ring
  refine ⟨heval, ?_⟩
  rw [heval]
  have h30 : i.responseTimeSeconds / 30 < 0 := by
    apply div_neg_of_neg_of_pos hneg
    norm_num
  nlinarith

/-- C2 amended witness: the coercion at latency −30. -/
theorem negative_latency_coerced_witness :
    immediateEffectiveness [negLatencyInteraction] =
      0.7 + (1 - negLatencyInteraction.responseTimeSeconds / 30) * 0.3 ∧
    1 < immediateEffectiveness [negLatencyInteraction] :=
  negative_latency_coerced negLatencyInteraction
    (by norm_num [negLatencyInteraction, mkInteraction]) rfl rfl rfl

/-- C3: retention effectiveness averages per-content later/initial
correctness ratios (capped at 1, with 0.5 for a zero initial window) over the
contents with at least two interactions; it returns 0.5 when no content has
at least two interactions, and the single-content history
correct, correct, correct, wrong, wrong, wrong (in time order) yields
exactly 0.0. -/
theorem retention_default_and_example :
    (∀ l : List LearningInteraction,
        (∀ cid ∈ contentIdsOf l, (interactionsFor l cid).length < 2) →
        retentionEffectiveness l = 0.5)
    ∧ retentionEffectiveness retentionExample = 0 := by
  constructor
  · intro l hl
    have hfil : ((contentIdsOf l).map (fun cid => interactionsFor l cid)).filter
        (fun g => 2 ≤ g.length) = [] := by
      rw [List.filter_eq_nil_iff]
      intro g hg
      obtain ⟨cid, hcid, rfl⟩ := List.mem_map.mp hg
      simpa using Nat.not_le.mpr (hl cid hcid)
    rw [retentionEffectiveness]
    simp only [hfil, List.map_nil, if_pos]
  · norm_num [retentionEffectiveness, retentionExample, mkInteraction,
      contentIdsOf, firstOccurrences, interactionsFor, retentionScoreFor,
      sortByTimestamp, listMean, List.insertionSort, List.orderedInsert,
      List.countP, List.countP.go]

/-- C3 witness: the 0.5 default applied to a single-interaction input, whose
only content has just one interaction. -/
theorem retention_default_witness :
    retentionEffectiveness [goodInteraction] = 0.5 :=
  retention_default_and_example.1 [goodInteraction]
    (by
      intro cid hcid
      simp [contentIdsOf, firstOccurrences, goodInteraction, mkInteraction] at hcid
      subst hcid
      simp [interactionsFor, goodInteraction, mkInteraction])

/-- C7: an hour with at least 5 interactions and accuracy strictly above 0.8
makes pattern identification emit exactly one "optimal_timing" pattern whose
conditions record that hour and whose effectiveness score is the fixed
constant 0.8; an hour with only 4 interactions never qualifies and never
appears in an emitted pattern. -/
theorem timing_pattern_threshold (l : List LearningInteraction) (h : ℕ) :
    ((5 ≤ (interactionsAtHour l h).length ∧
        (0.8 : ℚ) < ((interactionsAtHour l h).countP (·.isCorrect) : ℚ) /
          (interactionsAtHour l h).length) →
      ∃ p, identifyLearningPatternsAI l = [p] ∧
        p.patternType = "optimal_timing" ∧ p.effectivenessScore = 0.8 ∧
        h ∈ p.optimalHours)
    ∧ ((interactionsAtHour l h).length = 4 →
        h ∉ bestHours l ∧
        ∀ p ∈ identifyLearningPatternsAI l, h ∉ p.optimalHours) := by
  constructor
  · rintro ⟨h5, hacc⟩
    have hq : qualifiesAt l h = true := by
      simp only [qualifiesAt, Bool.and_eq_true, decide_eq_true_eq]
      exact ⟨h5, hacc⟩
    obtain ⟨i, hi⟩ := List.exists_mem_of_length_pos (by omega :
      0 < (interactionsAtHour l h).length)
    have hif := List.mem_filter.mp hi
    have hbh : h ∈ bestHours l := by
      rw [mem_bestHours]
      refine ⟨(mem_hoursOf l h).mpr ⟨i, hif.1, by simpa using hif.2⟩, hq⟩
    have hlne : l ≠ [] := by
      rintro rfl
      simp [interactionsAtHour] at h5
    rw [identifyLearningPatternsAI, dif_neg hlne]
    rw [if_neg (List.ne_nil_of_mem hbh)]
    exact ⟨_, rfl, rfl, rfl, hbh⟩
  · intro h4
    have hnq : qualifiesAt l h = false := by
      simp only [qualifiesAt, h4, Bool.and_eq_false_iff]
      left
      simp
    have hnb : h ∉ bestHours l := by
      intro hmem
      rw [mem_bestHours] at hmem
      rw [hnq] at hmem
      exact Bool.false_ne_true hmem.2
    refine ⟨hnb, ?_⟩
    intro p hp
    by_cases hl : l = []
    · subst hl
      simp [identifyLearningPatternsAI] at hp
    · rw [identifyLearningPatternsAI, dif_neg hl] at hp
      by_cases hb : bestHours l = []
      · rw [if_pos hb] at hp
        simp at hp
      · rw [if_neg hb] at hp
        rw [List.mem_singleton] at hp
        subst hp
        exact hnb

/-- C7 witness: five all-correct interactions in hour 0 produce the single
timing pattern containing hour 0. -/
theorem timing_pattern_threshold_witness :
    ∃ p, identifyLearningPatternsAI fiveAtHourZero = [p] ∧
      p.patternType = "optimal_timing" ∧ p.effectivenessScore = 0.8 ∧
      0 ∈ p.optimalHours :=
  (timing_pattern_threshold fiveAtHourZero 0).1
    (by
      norm_num [interactionsAtHour, hourOf, fiveAtHourZero, mkInteraction,
        List.countP, List.countP.go])

/-- C10: pattern identification emits at most one pattern in total; whenever
some hour qualifies, the qualifying hours are aggregated into a single
"optimal_timing" pattern whose conditions hold the whole qualifying-hour
list and whose frequency is the number of qualifying hours. -/
theorem patterns_aggregated (l : List LearningInteraction) :
    (identifyLearningPatternsAI l).length ≤ 1 ∧
    (bestHours l ≠ [] →
      ∃ p, identifyLearningPatternsAI l = [p] ∧
        p.patternType = "optimal_timing" ∧
        p.optimalHours = bestHours l ∧
        p.frequency = (bestHours l).length) := by
  by_cases hl : l = []
  · subst hl
    refine ⟨by simp [identifyLearningPatternsAI], ?_⟩
    intro hb
    exact absurd rfl hb
  · by_cases hb : bestHours l = []
    · rw [identifyLearningPatternsAI, dif_neg hl]
      rw [if_pos hb]
      exact ⟨by simp, fun hc => absurd hb hc⟩
    · rw [identifyLearningPatternsAI, dif_neg hl]
      rw [if_neg hb]
      exact ⟨by simp, fun _ => ⟨_, rfl, rfl, rfl, rfl⟩⟩

/-- C10 witness: with five correct interactions in each of hours 0 and 1,
both hours qualify and a single pattern carries both of them. -/
theorem patterns_aggregated_witness :
    ∃ p, identifyLearningPatternsAI tenAtTwoHours = [p] ∧
      p.patternType = "optimal_timing" ∧
      p.optimalHours = bestHours tenAtTwoHours ∧
      p.frequency = (bestHours tenAtTwoHours).length :=
  (patterns_aggregated tenAtTwoHours).2
    (by
      have hbh : bestHours tenAtTwoHours = [0, 1] := by
        norm_num [bestHours, hoursOf, qualifiesAt, interactionsAtHour, hourOf,
          tenAtTwoHours, mkInteraction, List.countP, List.countP.go]
      rw [hbh]
      simp)

/-- C1: under the data-model invariants (non-negative latency and hint
count, attempt count at least 1, confidence in [0,1] when present) and a
well-formed progress summary (mastery rate in [0,1], non-negative
difficulty progression and learning velocity), the immediate, retention,
progression, composite (0.4/0.4/0.2) and real-time scores all lie in
[0, 1]. -/
theorem all_scores_unit_interval (l : List LearningInteraction)
    (d : List (String × ℚ))
    (hrt : ∀ i ∈ l, 0 ≤ i.responseTimeSeconds)
    (hh : ∀ i ∈ l, 0 ≤ i.hintsUsed)
    (ha : ∀ i ∈ l, 1 ≤ i.attempts)
    (hconf : ∀ i ∈ l, ∀ c ∈ i.confidenceLevel, 0 ≤ c ∧ c ≤ 1)
    (hdp : 0 ≤ lookupOr d "difficulty_progression" 0)
    (hmr0 : 0 ≤ lookupOr d "mastery_rate" 0)
    (hmr1 : lookupOr d "mastery_rate" 0 ≤ 1)
    (hlv : 0 ≤ lookupOr d "learning_velocity" 0) :
    (0 ≤ immediateEffectiveness l ∧ immediateEffectiveness l ≤ 1) ∧
    (0 ≤ retentionEffectiveness l ∧ retentionEffectiveness l ≤ 1) ∧
    (0 ≤ progressionEffectiveness d ∧ progressionEffectiveness d ≤ 1) ∧
    (0 ≤ overallEffectiveness (immediateEffectiveness l)
          (retentionEffectiveness l) (progressionEffectiveness d) ∧
      overallEffectiveness (immediateEffectiveness l)
          (retentionEffectiveness l) (progressionEffectiveness d) ≤ 1) ∧
    ((0 : ℝ) ≤ realTimeEffectiveness l ∧ realTimeEffectiveness l ≤ 1) := by
  have h1 := immediateEffectiveness_nonneg l
  have h2 := immediateEffectiveness_le_one l hrt hh ha
  have h3 := retentionEffectiveness_bounds l
  have h4 := progressionEffectiveness_bounds d hdp hmr0 hlv
  refine ⟨⟨h1, h2⟩, h3, h4, ⟨?_, ?_⟩, realTimeEffectiveness_bounds l⟩
  · rw [overallEffectiveness]
    nlinarith [h3.1, h4.1]
  · rw [overallEffectiveness]
    nlinarith [h3.2, h4.2]

/-- C1 witness: the bounds at a concrete valid interaction list and empty
progress summary. -/
theorem all_scores_unit_interval_witness :
    (0 ≤ immediateEffectiveness [goodInteraction] ∧
      immediateEffectiveness [goodInteraction] ≤ 1) ∧
    (0 ≤ retentionEffectiveness [goodInteraction] ∧
      retentionEffectiveness [goodInteraction] ≤ 1) ∧
    (0 ≤ progressionEffectiveness [] ∧ progressionEffectiveness [] ≤ 1) ∧
    (0 ≤ overallEffectiveness (immediateEffectiveness [goodInteraction])
          (retentionEffectiveness [goodInteraction]) (progressionEffectiveness []) ∧
      overallEffectiveness (immediateEffectiveness [goodInteraction])
          (retentionEffectiveness [goodInteraction]) (progressionEffectiveness []) ≤ 1) ∧
    ((0 : ℝ) ≤ realTimeEffectiveness [goodInteraction] ∧
      realTimeEffectiveness [goodInteraction] ≤ 1) :=
  all_scores_unit_interval [goodInteraction] []
    (by intro i hi; simp at hi; subst hi; norm_num [goodInteraction, mkInteraction])
    (by intro i hi; simp at hi; subst hi; norm_num [goodInteraction, mkInteraction])
    (by intro i hi; simp at hi; subst hi; norm_num [goodInteraction, mkInteraction])
    (by intro i hi; simp at hi; subst hi; simp [goodInteraction, mkInteraction])
    (by norm_num [lookupOr]) (by norm_num [lookupOr]) (by norm_num [lookupOr])
    (by norm_num [lookupOr])

theorem indexList_length (n : ℕ) : (indexList n).length = n := by
  simp [indexList]

theorem sum_map_affine (xs : List ℚ) (a d : ℚ) :
    (xs.map (fun x => a + d * x)).sum = xs.length * a + d * xs.sum := by
  induction xs with
  | nil => simp
  | cons x t ih =>
    simp only [List.map_cons, List.sum_cons, ih, List.length_cons]
    push_cast
    ring

theorem listMean_map_affine (xs : List ℚ) (a d : ℚ) (hne : xs ≠ []) :
    listMean (xs.map (fun x => a + d * x)) = a + d * listMean xs := by
  have hn : (xs.length : ℚ) ≠ 0 := by
    have := List.length_pos.mpr hne
    positivity
  rw [listMean, listMean, sum_map_affine, List.length_map]
  field_simp
  ring

theorem zip_self_map (xs : List ℚ) (f : ℚ → ℚ) :
    xs.zip (xs.map f) = xs.map (fun x => (x, f x)) := by
  induction xs with
  | nil => simp
  | cons x t ih => simp [ih]

theorem sum_map_mul_const (xs : List ℚ) (d : ℚ) (g : ℚ → ℚ) :
    (xs.map (fun x => d * g x)).sum = d * (xs.map g).sum := by
  induction xs with
  | nil => simp
  | cons x t ih =>
    simp only [List.map_cons, List.sum_cons, ih]
    ring

theorem meanDeviationProducts_affine (xs : List ℚ) (a d : ℚ) :
    meanDeviationProducts xs (xs.map (fun x => a + d * x)) =
      d * squaredDeviations xs := by
  by_cases hne : xs = []
  · subst hne
    simp [meanDeviationProducts, squaredDeviations]
  · rw [meanDeviationProducts, listMean_map_affine xs a d hne, zip_self_map,
      List.map_map, squaredDeviations]
    have hfun : ((fun p : ℚ × ℚ => (p.1 - listMean xs) * (p.2 - (a + d * listMean xs))) ∘
        fun x => (x, a + d * x)) = fun x => d * (x - listMean xs) ^ 2 := by
      funext x
      simp only [Function.comp]
      ring
    rw [hfun, sum_map_mul_const]

theorem squaredDeviations_map_affine (xs : List ℚ) (a d : ℚ) :
    squaredDeviations (xs.map (fun x => a + d * x)) =
      d ^ 2 * squaredDeviations xs := by
  by_cases hne : xs = []
  · subst hne
    simp [squaredDeviations]
  · rw [squaredDeviations, listMean_map_affine xs a d hne, List.map_map,
      squaredDeviations]
    have hfun : ((fun y : ℚ => (y - (a + d * listMean xs)) ^ 2) ∘
        fun x => a + d * x) = fun x => d ^ 2 * (x - listMean xs) ^ 2 := by
      funext x
      simp only [Function.comp]
      ring
    rw [hfun, sum_map_mul_const]

theorem squaredDeviations_indexList_pos (n : ℕ) (hn : 2 ≤ n) :
    0 < squaredDeviations (indexList n) := by
  have hnn : ∀ x ∈ (indexList n).map (fun x => (x - listMean (indexList n)) ^ 2),
      (0 : ℚ) ≤ x := by
    intro x hx
    obtain ⟨y, _, rfl⟩ := List.mem_map.mp hx
    positivity
  have h0 : (0 : ℚ) ∈ indexList n := by
    rw [indexList, List.mem_map]
    refine ⟨0, ?_, by norm_num⟩
    rw [List.mem_range]
    omega
  have h1 : (1 : ℚ) ∈ indexList n := by
    rw [indexList, List.mem_map]
    refine ⟨1, ?_, by norm_num⟩
    rw [List.mem_range]
    omega
  by_cases hmx : listMean (indexList n) = 0
  · have hmem : ((1 : ℚ) - listMean (indexList n)) ^ 2 ∈
        (indexList n).map (fun x => (x - listMean (indexList n)) ^ 2) :=
      List.mem_map.mpr ⟨1, h1, rfl⟩
    have := List.single_le_sum hnn _ hmem
    rw [squaredDeviations]
    have hpos : (0 : ℚ) < (1 - listMean (indexList n)) ^ 2 := by
      rw [hmx]
      norm_num
    linarith
  · have hmem : ((0 : ℚ) - listMean (indexList n)) ^ 2 ∈
        (indexList n).map (fun x => (x - listMean (indexList n)) ^ 2) :=
      List.mem_map.mpr ⟨0, h0, rfl⟩
    have := List.single_le_sum hnn _ hmem
    rw [squaredDeviations]
    have hpos : (0 : ℚ) < (0 - listMean (indexList n)) ^ 2 := by
      have : (0 : ℚ) - listMean (indexList n) ≠ 0 := by
        intro hc
        apply hmx
        linarith [sub_eq_zero.mp hc]
      positivity
    linarith

/-- C5 counterexample: the three-interaction sequence with strictly
increasing but unequally spaced difficulties beginner, elementary, native
(values 1, 2, 5) has a difficulty-trend component different from 1.0 (it is
(4/√(52/3) + 1)/2 ≈ 0.98), refuting the claim that every strictly increasing
difficulty sequence of length ≥ 3 yields trend 1.0. -/
theorem uneven_increasing_trend_not_one :
    difficultyTrend unevenTrendExample ≠ 1 := by
  have hds : (sortByTimestamp unevenTrendExample).map
      (fun i => difficultyValue i.difficultyLevel) = [1, 2, 5] := by
    norm_num [sortByTimestamp, List.insertionSort, List.orderedInsert,
      unevenTrendExample, mkInteraction, difficultyValue]
  have hx : indexList (([(1 : ℚ), 2, 5]).length) = [0, 1, 2] := by
    norm_num [indexList, List.range_succ]
  have h1 : meanDeviationProducts (indexList (([(1 : ℚ), 2, 5]).length))
      [1, 2, 5] = 4 := by
    rw [hx]
    norm_num [meanDeviationProducts, listMean]
  have h2 : squaredDeviations (indexList (([(1 : ℚ), 2, 5]).length)) = 2 := by
    rw [hx]
    norm_num [squaredDeviations, listMean]
  have h3 : squaredDeviations [(1 : ℚ), 2, 5] = 26 / 3 := by
    norm_num [squaredDeviations, listMean]
  rw [difficultyTrend, if_neg (by norm_num [unevenTrendExample]), hds,
    trendOfVals]
  rw [if_neg (by norm_num)]
  simp only [h1, h2, h3]
  rw [if_neg (by norm_num)]
  rw [show ((2 : ℚ) : ℝ) * ((26 / 3 : ℚ) : ℝ) = 52 / 3 by push_cast; ring]
  rw [show ((4 : ℚ) : ℝ) = (4 : ℝ) by norm_num]
  have hs : (4 : ℝ) < Real.sqrt (52 / 3) :=
    (Real.lt_sqrt (by norm_num)).mpr (by norm_num)
  have hspos : (0 : ℝ) < Real.sqrt (52 / 3) := lt_trans (by norm_num) hs
  have hc : (4 : ℝ) / Real.sqrt (52 / 3) < 1 := by
    rw [div_lt_one hspos]
    exact hs
  apply ne_of_lt
  apply max_lt (by norm_num)
  linarith

/-- C5 amended: the difficulty-trend component is 0.5 for fewer than three
interactions or a zero-variance difficulty series; it equals 1.0 exactly when
the timestamp-ordered mapped difficulties form an arithmetic progression with
positive step (equally spaced increase, e.g. one level per interaction), and
0.0 for an arithmetic progression with negative step — strict monotonicity
alone does not suffice. -/
theorem difficulty_trend_characterization :
    (∀ l : List LearningInteraction, l.length < 3 → difficultyTrend l = 0.5)
    ∧ (∀ l : List LearningInteraction,
        squaredDeviations ((sortByTimestamp l).map
          (fun i => difficultyValue i.difficultyLevel)) = 0 →
        difficultyTrend l = 0.5)
    ∧ (∀ (l : List LearningInteraction) (a d : ℚ), 3 ≤ l.length →
        (sortByTimestamp l).map (fun i => difficultyValue i.difficultyLevel) =
          (List.range l.length).map (fun k : ℕ => a + d * (k : ℚ)) →
        (0 < d → difficultyTrend l = 1) ∧ (d < 0 → difficultyTrend l = 0)) := by
  refine ⟨?_, ?_, ?_⟩
  · intro l hl
    rw [difficultyTrend, if_pos hl]
  · intro l hdy
    by_cases hl : l.length < 3
    · rw [difficultyTrend, if_pos hl]
    · rw [difficultyTrend, if_neg hl, trendOfVals]
      by_cases h2 : ((sortByTimestamp l).map
          (fun i => difficultyValue i.difficultyLevel)).length < 2
      · rw [if_pos h2]
      · rw [if_neg h2, if_pos (Or.inr hdy)]
  · intro l a d h3 hds
    have he : (List.range l.length).map (fun k : ℕ => a + d * (k : ℚ)) =
        (indexList l.length).map (fun x => a + d * x) := by
      rw [indexList, List.map_map]
      rfl
    have hSxpos : 0 < squaredDeviations (indexList l.length) :=
      squaredDeviations_indexList_pos l.length (by omega)
    have hnum : meanDeviationProducts (indexList l.length)
        ((indexList l.length).map (fun x => a + d * x)) =
        d * squaredDeviations (indexList l.length) :=
      meanDeviationProducts_affine _ _ _
    have hdy : squaredDeviations ((indexList l.length).map (fun x => a + d * x)) =
        d ^ 2 * squaredDeviations (indexList l.length) :=
      squaredDeviations_map_affine _ _ _
    have hcast : ((squaredDeviations (indexList l.length) : ℚ) : ℝ) *
        ((d ^ 2 * squaredDeviations (indexList l.length) : ℚ) : ℝ) =
        ((d * squaredDeviations (indexList l.length) : ℚ) : ℝ) ^ 2 := by
      push_cast
      ring
    constructor
    · intro hd
      rw [difficultyTrend, if_neg (by omega), hds, he, trendOfVals]
      simp only [List.length_map, indexList_length]
      rw [if_neg (by omega)]
      simp only [hnum, hdy]
      rw [if_neg (by
        push_neg
        constructor
        · exact ne_of_gt hSxpos
        · exact ne_of_gt (mul_pos (pow_pos hd 2) hSxpos))]
      have hpos : (0 : ℝ) < ((d * squaredDeviations (indexList l.length) : ℚ) : ℝ) := by
        exact_mod_cast mul_pos hd hSxpos
      rw [hcast, Real.sqrt_sq (le_of_lt hpos), div_self (ne_of_gt hpos)]
      norm_num
    · intro hd
      rw [difficultyTrend, if_neg (by omega), hds, he, trendOfVals]
      simp only [List.length_map, indexList_length]
      rw [if_neg (by omega)]
      simp only [hnum, hdy]
      rw [if_neg (by
        push_neg
        constructor
        · exact ne_of_gt hSxpos
        · exact ne_of_gt (mul_pos (by nlinarith [mul_pos_of_neg_of_neg hd hd]) hSxpos))]
      have hneg : ((d * squaredDeviations (indexList l.length) : ℚ) : ℝ) < 0 := by
        exact_mod_cast mul_neg_of_neg_of_pos hd hSxpos
      rw [hcast, Real.sqrt_sq_eq_abs, abs_of_neg hneg,
        div_neg, div_self (ne_of_lt hneg)]
      norm_num

/-- C5 amended witness: one level per interaction (beginner, elementary,
intermediate) gives trend exactly 1. -/
theorem difficulty_trend_characterization_witness :
    difficultyTrend evenTrendExample = 1 :=
  (difficulty_trend_characterization.2.2 evenTrendExample 1 1 (by
      norm_num [evenTrendExample])
    (by
      norm_num [sortByTimestamp, List.insertionSort, List.orderedInsert,
        evenTrendExample, mkInteraction, difficultyValue, List.range_succ])).1
    (by norm_num)

end SayZhong
